import Mathlib

/-
Verification of the CA SerpAPI news pipeline.

Shallow embedding of the pure logic of the repository:
  - data_retrieval_storage_news_engine.py  (dedup filter, trends retry loop,
    worksheet overwrite, meta-description fetch result handling, row building)
  - streamlit_app.py                       (cooldown run coordinator)
  - step2_summarisation_with_easier_reading(_ca).py (prompt flattening)

External collaborators (the search provider, the spreadsheet backend, the
HTTP fetcher, the language model) are modelled as explicit inputs: a run is a
function of the responses those collaborators would give.
-/

set_option autoImplicit false

namespace CASerpapi

/-- Worksheet rows are lists of cell strings. -/
abbrev Row := List String

/-- Maximum number of Google News rows kept per run (engine config CAP_NEWS). -/
def CAP_NEWS : Nat := 40

/-- Maximum number of Top Stories rows kept per run (engine config CAP_TOP_STORIES). -/
def CAP_TOP_STORIES : Nat := 40

/-- Maximum number of trend-query rows kept per run (engine config CAP_TRENDS). -/
def CAP_TRENDS : Nat := 20

/-- Cell of a row at a column index. The engine evaluates row[key_index] only on
rows that are wide enough, so the default "" of an out-of-range read is never
actually produced there. -/
def rowKey (keyIndex : Nat) (row : Row) : String := row.getD keyIndex ""

/-- Loop body of dedupe_rows: walks the rows keeping a seen-key set and an output
accumulator (held reversed), and breaks as soon as the output has keep_n rows.
As in the source, the break test runs after the conditional append. -/
def dedupeAux (keyIndex keepN : Nat) : List Row → List String → List Row → List Row
  | [], _, out => out.reverse
  | row :: rest, seen, out =>
    let key := rowKey keyIndex row
    let seen2 := if key ∈ seen then seen else key :: seen
    let out2 := if key ∈ seen then out else row :: out
    if keepN ≤ out2.length then out2.reverse
    else dedupeAux keyIndex keepN rest seen2 out2

/-- Embedding of dedupe_rows from data_retrieval_storage_news_engine.py. -/
def dedupe_rows (rows : List Row) (keyIndex : Nat) (keepN : Nat) : List Row :=
  dedupeAux keyIndex keepN rows [] []

/-- Specification-side helper: the subsequence of rows that are the first
occurrence of their key, in original order (no cap applied). -/
def firstOccAux (keyIndex : Nat) : List Row → List String → List Row
  | [], _ => []
  | row :: rest, seen =>
    let key := rowKey keyIndex row
    if key ∈ seen then firstOccAux keyIndex rest seen
    else row :: firstOccAux keyIndex rest (key :: seen)

/-- First occurrence of each key, in original order. -/
def firstOcc (keyIndex : Nat) (rows : List Row) : List Row :=
  firstOccAux keyIndex rows []

/-- Number of distinct keys appearing in the rows. -/
def distinctKeyCount (keyIndex : Nat) (rows : List Row) : Nat :=
  (rows.map (rowKey keyIndex)).toFinset.card

lemma dedupeAux_eq_take (keyIndex keepN : Nat) :
    ∀ (rest : List Row) (seen : List String) (out : List Row), out.length < keepN →
      dedupeAux keyIndex keepN rest seen out
        = out.reverse ++ (firstOccAux keyIndex rest seen).take (keepN - out.length) := by
  intro rest
  induction rest with
  | nil =>
    intro seen out h
    simp [dedupeAux, firstOccAux]
  | cons row rest ih =>
    intro seen out h
    by_cases hk : rowKey keyIndex row ∈ seen
    · have hnb : ¬ keepN ≤ out.length := not_le.mpr h
      simp only [dedupeAux, firstOccAux, if_pos hk, if_neg hnb]
      exact ih seen out h
    · by_cases h2 : keepN ≤ out.length + 1
      · have htake : keepN - out.length = 1 := by omega
        simp only [dedupeAux, firstOccAux, if_neg hk, List.length_cons, if_pos h2, htake,
          List.take_succ_cons, List.take_zero, List.reverse_cons]
      · have h3 : (row :: out).length < keepN := by
          simp only [List.length_cons]; omega
        have htake : keepN - out.length = (keepN - (out.length + 1)) + 1 := by omega
        simp only [dedupeAux, firstOccAux, if_neg hk, List.length_cons, if_neg h2]
        rw [ih (rowKey keyIndex row :: seen) (row :: out) h3]
        simp [htake, List.take_succ_cons, List.append_assoc]

lemma dedupe_rows_eq_take (rows : List Row) (keyIndex keepN : Nat) (hk : 1 ≤ keepN) :
    dedupe_rows rows keyIndex keepN = (firstOcc keyIndex rows).take keepN := by
  have h := dedupeAux_eq_take keyIndex keepN rows [] [] (by simpa using hk)
  simpa [dedupe_rows, firstOcc] using h

lemma firstOccAux_sublist (keyIndex : Nat) :
    ∀ (rows : List Row) (seen : List String), (firstOccAux keyIndex rows seen).Sublist rows := by
  intro rows
  induction rows with
  | nil => intro seen; simp [firstOccAux]
  | cons row rest ih =>
    intro seen
    by_cases hk : rowKey keyIndex row ∈ seen
    · simp only [firstOccAux, if_pos hk]
      exact (ih seen).cons row
    · simp only [firstOccAux, if_neg hk]
      exact (ih _).cons₂ row

lemma firstOccAux_keys (keyIndex : Nat) :
    ∀ (rows : List Row) (seen : List String),
      ((firstOccAux keyIndex rows seen).map (rowKey keyIndex)).Nodup
        ∧ ∀ s ∈ (firstOccAux keyIndex rows seen).map (rowKey keyIndex), s ∉ seen := by
  intro rows
  induction rows with
  | nil => intro seen; simp [firstOccAux]
  | cons row rest ih =>
    intro seen
    by_cases hk : rowKey keyIndex row ∈ seen
    · simpa only [firstOccAux, if_pos hk] using ih seen
    · obtain ⟨hnd, hmem⟩ := ih (rowKey keyIndex row :: seen)
      simp only [firstOccAux, if_neg hk, List.map_cons, List.nodup_cons]
      refine ⟨⟨fun hcon => (hmem _ hcon) (List.mem_cons_self _ _), hnd⟩, ?_⟩
      intro s hs
      rcases List.mem_cons.mp hs with hs | hs
      · rw [hs]; exact hk
      · intro hseen
        exact (hmem s hs) (List.mem_cons_of_mem _ hseen)

lemma firstOccAux_keys_toFinset (keyIndex : Nat) :
    ∀ (rows : List Row) (seen : List String),
      ((firstOccAux keyIndex rows seen).map (rowKey keyIndex)).toFinset
        = (rows.map (rowKey keyIndex)).toFinset \ seen.toFinset := by
  intro rows
  induction rows with
  | nil => intro seen; simp [firstOccAux]
  | cons row rest ih =>
    intro seen
    by_cases hk : rowKey keyIndex row ∈ seen
    · simp only [firstOccAux, if_pos hk, List.map_cons, List.toFinset_cons]
      rw [ih seen, Finset.insert_sdiff_of_mem]
      exact List.mem_toFinset.mpr hk
    · simp only [firstOccAux, if_neg hk, List.map_cons, List.toFinset_cons]
      rw [ih (rowKey keyIndex row :: seen)]
      ext b
      by_cases hbk : b = rowKey keyIndex row
      · subst hbk
        simp [hk]
      · simp [hbk]

lemma firstOcc_length (keyIndex : Nat) (rows : List Row) :
    (firstOcc keyIndex rows).length = distinctKeyCount keyIndex rows := by
  have hnd := (firstOccAux_keys keyIndex rows []).1
  have hfs := firstOccAux_keys_toFinset keyIndex rows []
  have hcard := List.toFinset_card_of_nodup hnd
  simp only [List.toFinset_nil, Finset.sdiff_empty] at hfs
  calc (firstOcc keyIndex rows).length
      = ((firstOccAux keyIndex rows []).map (rowKey keyIndex)).length := by
        simp [firstOcc]
    _ = ((firstOccAux keyIndex rows []).map (rowKey keyIndex)).toFinset.card := hcard.symm
    _ = distinctKeyCount keyIndex rows := by rw [hfs]; rfl

/-- C1 (amended): for every input row list whose rows are wider than the key
index and every cap keepN with 1 ≤ keepN, dedupe_rows returns exactly the first
keepN first-occurrence rows: its output equals the keepN-prefix of the
first-seen-by-key subsequence, has length min keepN (number of distinct keys),
is a subsequence of the input, and carries pairwise distinct keys. For keepN = 0
the length clause fails (see the counterexample), because the break test of the
loop runs only after a row has already been appended. -/
theorem dedupe_rows_spec (rows : List Row) (keyIndex keepN : Nat)
    (hwide : ∀ row ∈ rows, keyIndex < row.length) (hcap : 1 ≤ keepN) :
    dedupe_rows rows keyIndex keepN = (firstOcc keyIndex rows).take keepN
      ∧ (dedupe_rows rows keyIndex keepN).length = min keepN (distinctKeyCount keyIndex rows)
      ∧ (dedupe_rows rows keyIndex keepN).Sublist rows
      ∧ ((dedupe_rows rows keyIndex keepN).map (rowKey keyIndex)).Nodup := by
  have he := dedupe_rows_eq_take rows keyIndex keepN hcap
  refine ⟨he, ?_, ?_, ?_⟩
  · rw [he, List.length_take, firstOcc_length]
  · rw [he]
    exact (List.take_sublist _ _).trans (firstOccAux_sublist keyIndex rows [])
  · rw [he, List.map_take]
    exact List.Nodup.sublist (List.take_sublist _ _) (firstOccAux_keys keyIndex rows []).1

/-- C1 counterexample: with cap 0 and a nonempty input, the output still keeps
one row, so its length is 1, not min 0 (distinct keys) = 0. -/
theorem dedupe_rows_cap_zero_counterexample :
    dedupe_rows [["x"]] 0 0 = [["x"]]
      ∧ (dedupe_rows [["x"]] 0 0).length ≠ min 0 (distinctKeyCount 0 [["x"]]) := by
  constructor
  · rfl
  · decide

/-- C1 witness: the amended theorem evaluated at a concrete input with one
duplicated key and cap 2. -/
theorem dedupe_rows_spec_witness :
    dedupe_rows [["a", "k"], ["b", "k"], ["c", "j"], ["d", "i"]] 1 2
        = (firstOcc 1 [["a", "k"], ["b", "k"], ["c", "j"], ["d", "i"]]).take 2
      ∧ (dedupe_rows [["a", "k"], ["b", "k"], ["c", "j"], ["d", "i"]] 1 2).length
          = min 2 (distinctKeyCount 1 [["a", "k"], ["b", "k"], ["c", "j"], ["d", "i"]])
      ∧ (dedupe_rows [["a", "k"], ["b", "k"], ["c", "j"], ["d", "i"]] 1 2).Sublist
          [["a", "k"], ["b", "k"], ["c", "j"], ["d", "i"]]
      ∧ ((dedupe_rows [["a", "k"], ["b", "k"], ["c", "j"], ["d", "i"]] 1 2).map (rowKey 1)).Nodup :=
  dedupe_rows_spec [["a", "k"], ["b", "k"], ["c", "j"], ["d", "i"]] 1 2
    (by decide) (by decide)

/-- Outcome of one SerpAPI google_trends call: a usable response, the
rate-limit signal (TooManyRequestsError), or any other provider error. -/
inductive TrendsOutcome
  | success
  | rateLimited
  | otherError
deriving DecidableEq

/-- Result of the trends fetch as observed by the caller. -/
inductive TrendsResult
  | ok
  | providerError
  | rateLimitExhausted
deriving DecidableEq

/-- Trace of one execution of the trends fetch: the final result, the sleep
durations performed in order (seconds), and the number of provider calls made. -/
structure TrendsTrace where
  result : TrendsResult
  sleeps : List Nat
  calls : Nat
deriving DecidableEq

/-- While-loop of fetch_google_trends: while attempts < 5, call the provider;
on success return; on TooManyRequestsError sleep (2 ^ attempts) * 10 seconds,
increment attempts and loop; on any other error propagate; once the loop
exits, raise the exhaustion error. The provider is modelled as a function from
the attempt number to that call's outcome. -/
def trendsGo (responses : Nat → TrendsOutcome) (attempts : Nat) : TrendsTrace :=
  if h : attempts < 5 then
    match responses attempts with
    | .success => ⟨.ok, [], 1⟩
    | .otherError => ⟨.providerError, [], 1⟩
    | .rateLimited =>
      let rest := trendsGo responses (attempts + 1)
      ⟨rest.result, 2 ^ attempts * 10 :: rest.sleeps, rest.calls + 1⟩
  else ⟨.rateLimitExhausted, [], 0⟩
termination_by 5 - attempts
decreasing_by omega

/-- Embedding of fetch_google_trends from data_retrieval_storage_news_engine.py
(control flow only; the returned rising/top lists are opaque here). -/
def fetch_google_trends (responses : Nat → TrendsOutcome) : TrendsTrace :=
  trendsGo responses 0

lemma trendsGo_exhausted (responses : Nat → TrendsOutcome) :
    ∀ (n a : Nat), 5 - a = n → (∀ i, a ≤ i → i < 5 → responses i = .rateLimited) →
      trendsGo responses a
        = ⟨.rateLimitExhausted, (List.range' a n).map (fun i => 2 ^ i * 10), n⟩ := by
  intro n
  induction n with
  | zero =>
    intro a ha _
    rw [trendsGo, dif_neg (by omega)]
    simp
  | succ n ih =>
    intro a ha hrl
    have ha5 : a < 5 := by omega
    rw [trendsGo, dif_pos ha5, hrl a le_rfl ha5]
    rw [ih (a + 1) (by omega) (fun i hi hi5 => hrl i (by omega) hi5)]
    simp [List.range'_succ]

lemma trendsGo_stops (responses : Nat → TrendsOutcome) (fin : TrendsOutcome)
    (hfin : fin = .success ∨ fin = .otherError) :
    ∀ (n a k : Nat), k - a = n → a ≤ k → k < 5 →
      (∀ i, a ≤ i → i < k → responses i = .rateLimited) → responses k = fin →
      trendsGo responses a
        = ⟨if fin = .success then .ok else .providerError,
           (List.range' a n).map (fun i => 2 ^ i * 10), n + 1⟩ := by
  intro n
  induction n with
  | zero =>
    intro a k ha hak hk5 _ hfk
    have hae : a = k := by omega
    subst hae
    rw [trendsGo, dif_pos hk5, hfk]
    rcases hfin with h | h <;> subst h <;> simp
  | succ n ih =>
    intro a k ha hak hk5 hrl hfk
    have hlt : a < k := by omega
    have ha5 : a < 5 := by omega
    rw [trendsGo, dif_pos ha5, hrl a le_rfl hlt]
    rw [ih (a + 1) k (by omega) (by omega) hk5 (fun i hi hik => hrl i (by omega) hik) hfk]
    simp [List.range'_succ]

/-- C2: retry policy of the trends fetch. If the provider rate-limits every one
of the first five calls, the fetch sleeps 10 * 2 ^ i seconds after the i-th
rate-limit error and then fails with the exhaustion error after exactly 5
provider calls (no 6th attempt). If the provider rate-limits calls 0..k-1 and
then succeeds on call k (k < 5), the fetch sleeps exactly 10, 20, ..., 10 * 2 ^ (k-1)
in sequence and returns success after k+1 calls. If call k instead fails with a
non-rate-limit error, that error propagates at once after k+1 calls with no
additional sleep. -/
theorem fetch_google_trends_retry_policy (responses : Nat → TrendsOutcome) (k : Nat) :
    ((∀ i, i < 5 → responses i = .rateLimited) →
      fetch_google_trends responses
        = ⟨.rateLimitExhausted, (List.range 5).map (fun i => 2 ^ i * 10), 5⟩)
      ∧ (k < 5 → (∀ i, i < k → responses i = .rateLimited) → responses k = .success →
          fetch_google_trends responses
            = ⟨.ok, (List.range k).map (fun i => 2 ^ i * 10), k + 1⟩)
      ∧ (k < 5 → (∀ i, i < k → responses i = .rateLimited) → responses k = .otherError →
          fetch_google_trends responses
            = ⟨.providerError, (List.range k).map (fun i => 2 ^ i * 10), k + 1⟩) := by
  refine ⟨?_, ?_, ?_⟩
  · intro h
    have := trendsGo_exhausted responses 5 0 rfl (fun i _ hi5 => h i hi5)
    simpa [fetch_google_trends, List.range_eq_range'] using this
  · intro hk5 hrl hs
    have := trendsGo_stops responses .success (Or.inl rfl) k 0 k (by omega) (by omega) hk5
      (fun i _ hik => hrl i hik) hs
    simpa [fetch_google_trends, List.range_eq_range'] using this
  · intro hk5 hrl hs
    have := trendsGo_stops responses .otherError (Or.inr rfl) k 0 k (by omega) (by omega) hk5
      (fun i _ hik => hrl i hik) hs
    simpa [fetch_google_trends, List.range_eq_range'] using this

/-- C2 witness: four rate limits followed by a success sleep 10, 20, 40, 80 and
succeed on the fifth call. -/
theorem fetch_google_trends_retry_policy_witness :
    fetch_google_trends (fun i => if i < 4 then .rateLimited else .success)
      = ⟨.ok, [10, 20, 40, 80], 5⟩ := by
  have h := (fetch_google_trends_retry_policy
      (fun i => if i < 4 then .rateLimited else .success) 4).2.1
    (by omega) (fun i hi => by simp [hi]) (by simp)
  simpa [List.range_succ] using h

/-- Two-cell metadata record of the Metadata CA worksheet: cell (2,1) holds the
last-run UTC timestamp (modelled as seconds, already parsed; none when blank)
and cell (2,2) the last summary text (none when blank). -/
structure MetaRecord where
  lastRun : Option ℚ
  lastSummary : Option String
deriving DecidableEq

/-- Errors that the pipeline stages can raise. -/
inductive RunErr
  | fetchErr
  | genErr
deriving DecidableEq

/-- Observable side-effecting operations of a run, in execution order:
the retrieve-and-store stage, the summary generation stage, and the metadata
write. -/
inductive RunStep
  | fetchStore
  | generate
  | setMeta
deriving DecidableEq

/-- Everything observable about one run_all call: the value returned to the
caller (or the propagated error), the final metadata record, and the attempted
side-effecting operations in order. -/
structure RunOutput where
  result : Except RunErr (Option String)
  meta : MetaRecord
  steps : List RunStep

/-- Embedding of get_last_run_info from streamlit_app.py: when the timestamp
cell is blank, both values are reported as absent, even if a summary is
stored. -/
def get_last_run_info (m : MetaRecord) : Option ℚ × Option String :=
  match m.lastRun with
  | some t => (some t, m.lastSummary)
  | none => (none, none)

/-- Embedding of run_all from streamlit_app.py. Time stands still during the
run: now is the value of datetime.now at its start, in seconds. The two
pipeline stages are modelled by the results they would produce if called:
fetchRes for retrieve_and_store_data() and genRes for generate_summary(). -/
def run_all (cooldownHours : ℚ) (now : ℚ) (m : MetaRecord)
    (fetchRes : Except RunErr Unit) (genRes : Except RunErr String) : RunOutput :=
  let info := get_last_run_info m
  let elapsed : ℚ :=
    match info.1 with
    | none => 9999
    | some t => (now - t) / 3600
  if elapsed < cooldownHours then
    { result := .ok info.2, meta := m, steps := [] }
  else
    match fetchRes with
    | .error e => { result := .error e, meta := m, steps := [.fetchStore] }
    | .ok _ =>
      match genRes with
      | .error e => { result := .error e, meta := m, steps := [.fetchStore, .generate] }
      | .ok s =>
        { result := .ok (some s),
          meta := { lastRun := some now, lastSummary := some s },
          steps := [.fetchStore, .generate, .setMeta] }

/-- C3: cooldown gating. With a stored timestamp t whose age is under
cooldownHours, run_all performs no fetch/store/generation step and returns the
stored summary with the metadata unchanged; with age at least cooldownHours it
runs the full pipeline (fetch-store, generate, metadata write, in that order)
and returns the freshly generated summary. -/
theorem run_all_cooldown_gating (cooldownHours now t : ℚ) (m : MetaRecord) (s : String)
    (fetchRes : Except RunErr Unit) (genRes : Except RunErr String) :
    (m.lastRun = some t → (now - t) / 3600 < cooldownHours →
      run_all cooldownHours now m fetchRes genRes
        = { result := .ok m.lastSummary, meta := m, steps := [] })
      ∧ (m.lastRun = some t → cooldownHours ≤ (now - t) / 3600 →
          run_all cooldownHours now m (.ok ()) (.ok s)
            = { result := .ok (some s),
                meta := { lastRun := some now, lastSummary := some s },
                steps := [.fetchStore, .generate, .setMeta] }) := by
  constructor
  · intro hm hlt
    simp [run_all, get_last_run_info, hm, hlt]
  · intro hm hge
    simp [run_all, get_last_run_info, hm, not_lt.mpr hge]

/-- C3 witness: with a 3 hour cooldown, a run 1 hour (3600 s) after the stored
timestamp returns the cached summary with no work, and a run 4 hours (14400 s)
after it executes the full pipeline. -/
theorem run_all_cooldown_gating_witness :
    run_all 3 3600 ⟨some 0, some "old"⟩ (.ok ()) (.ok "new")
        = { result := .ok (some "old"), meta := ⟨some 0, some "old"⟩, steps := [] }
      ∧ run_all 3 14400 ⟨some 0, some "old"⟩ (.ok ()) (.ok "new")
        = { result := .ok (some "new"), meta := ⟨some 14400, some "new"⟩,
            steps := [.fetchStore, .generate, .setMeta] } :=
  ⟨(run_all_cooldown_gating 3 3600 0 ⟨some 0, some "old"⟩ "new" (.ok ()) (.ok "new")).1
      rfl (by norm_num),
    (run_all_cooldown_gating 3 14400 0 ⟨some 0, some "old"⟩ "new" (.ok ()) (.ok "new")).2
      rfl (by norm_num)⟩

/-- C4: no partial metadata update. Every run either leaves the metadata record
exactly as it was, or it is a fully successful run: both stages succeeded, the
new summary is returned, and the record now holds the run's start time and that
summary. In particular any run whose result is an error leaves the record, and
hence the cooldown window, untouched. -/
theorem run_all_no_partial_update (cooldownHours now : ℚ) (m : MetaRecord)
    (fetchRes : Except RunErr Unit) (genRes : Except RunErr String) :
    (run_all cooldownHours now m fetchRes genRes).meta = m
      ∨ (∃ s, fetchRes = .ok () ∧ genRes = .ok s
          ∧ (run_all cooldownHours now m fetchRes genRes).result = .ok (some s)
          ∧ (run_all cooldownHours now m fetchRes genRes).meta
              = { lastRun := some now, lastSummary := some s }) := by
  rcases fetchRes with e | u
  · left
    simp only [run_all, get_last_run_info]
    split <;> rfl
  · cases u
    rcases genRes with e | s
    · left
      simp only [run_all, get_last_run_info]
      split <;> rfl
    · simp only [run_all, get_last_run_info]
      split
      · exact Or.inl rfl
      · exact Or.inr ⟨s, trivial, rfl, rfl, rfl⟩

/-- C8 counterexample: the code treats an absent record as elapsed = 9999 hours,
not infinity, so with cooldownHours = 10000 a run with no stored timestamp is
judged to be cooling: it performs no pipeline step and returns no summary,
although the claim requires the full pipeline to run for every cooldownHours. -/
theorem run_all_absent_record_counterexample :
    (run_all 10000 0 ⟨none, some "old"⟩ (.ok ()) (.ok "new")).steps = []
      ∧ (run_all 10000 0 ⟨none, some "old"⟩ (.ok ()) (.ok "new")).result = .ok none := by
  constructor
  · simp [run_all, get_last_run_info, show (9999 : ℚ) < 10000 by norm_num]
  · simp [run_all, get_last_run_info, show (9999 : ℚ) < 10000 by norm_num]

/-- C8 (amended): when the metadata record has no stored timestamp, the
coordinator sets elapsed to the sentinel 9999 hours; therefore for every
cooldownHours at most 9999 — in particular the default 3 — an absent record
puts it in the Ready state and the full pipeline executes. -/
theorem run_all_absent_record_ready (cooldownHours now : ℚ) (m : MetaRecord) (s : String)
    (hc : cooldownHours ≤ 9999) (hm : m.lastRun = none) :
    run_all cooldownHours now m (.ok ()) (.ok s)
      = { result := .ok (some s),
          meta := { lastRun := some now, lastSummary := some s },
          steps := [.fetchStore, .generate, .setMeta] } := by
  simp [run_all, get_last_run_info, hm, not_lt.mpr hc]

/-- C8 witness: the default 3 hour cooldown with an absent record runs the full
pipeline. -/
theorem run_all_absent_record_ready_witness :
    run_all 3 0 ⟨none, none⟩ (.ok ()) (.ok "fresh")
      = { result := .ok (some "fresh"), meta := ⟨some 0, some "fresh"⟩,
          steps := [.fetchStore, .generate, .setMeta] } :=
  run_all_absent_record_ready 3 0 ⟨none, none⟩ "fresh" (by norm_num) rfl

/-- Raw news or top-story record from the provider: each field is absent
(covering both a missing key and an explicit null) or a string. -/
structure NewsItem where
  title : Option String
  link : Option String
  snippet : Option String
deriving DecidableEq

/-- Python "x or d" on an optional string field: the default is substituted for
every falsy value, that is for an absent field and for the empty string. -/
def falsyOr (v : Option String) (d : String) : String :=
  match v with
  | none => d
  | some s => if s = "" then d else s

/-- Row building of store_data_in_google_sheets: a three-column row (title,
link, snippet) with the literal sentinels for falsy fields. -/
def toNewsRow (a : NewsItem) : Row :=
  [falsyOr a.title "No Title", falsyOr a.link "No Link", falsyOr a.snippet "No Snippet"]

/-- Character-wise prefix test: the first list is a prefix of the second. -/
def isPrefixChars : List Char → List Char → Bool
  | [], _ => true
  | _ :: _, [] => false
  | c :: cs, d :: ds => c == d && isPrefixChars cs ds

/-- Python str.startswith(p) on s. (The library's byte-based String.startsWith
is the same test but does not evaluate inside the kernel, so the model works on
the character lists.) -/
def startswith (s p : String) : Bool := isPrefixChars p.data s.data

/-- Python dict comprehension over the deduplicated rows mapping link to
snippet, followed by .get: later rows win, and a missing key yields none. -/
def snippet_lookup (rows : List Row) (k : String) : Option String :=
  (rows.reverse.find? (fun r => rowKey 1 r == k)).map (fun r => rowKey 2 r)

/-- Meta-description attachment loop of store_data_in_google_sheets: zips the
deduplicated rows with the fetched descriptions, appends the description (or
the sentinel if it is empty) as a fourth column, and overwrites it with the
snippet looked up by link whenever the description starts with "HTTP" or
"Error" (defaulting to "No Meta Description" if the link is not found). -/
def attach_meta (rows : List Row) (metas : List String) : List Row :=
  List.zipWith
    (fun (row : Row) (meta : String) =>
      let appended := if meta = "" then "No Meta Description" else meta
      let final :=
        if startswith meta "HTTP" ∨ startswith meta "Error" then
          (snippet_lookup rows (rowKey 1 row)).getD "No Meta Description"
        else appended
      row ++ [final])
    rows metas

/-- News branch of store_data_in_google_sheets, parameterized by the
descriptions the enricher returned: build rows, dedupe by link with cap
CAP_NEWS, attach the meta-description column. The top-stories branch is the
same code with CAP_TOP_STORIES (also 40). -/
def news_pipeline_rows (news : List NewsItem) (metas : List String) : List Row :=
  attach_meta (dedupe_rows (news.map toNewsRow) 1 CAP_NEWS) metas

lemma dedupe_rows_keys_nodup (rows : List Row) (keyIndex keepN : Nat) (hk : 1 ≤ keepN) :
    ((dedupe_rows rows keyIndex keepN).map (rowKey keyIndex)).Nodup := by
  rw [dedupe_rows_eq_take rows keyIndex keepN hk, List.map_take]
  exact List.Nodup.sublist (List.take_sublist _ _) (firstOccAux_keys keyIndex rows []).1

lemma find?_key_unique :
    ∀ (l : List Row) (r : Row), ((l.map (rowKey 1)).Nodup) → r ∈ l →
      l.find? (fun x => rowKey 1 x == rowKey 1 r) = some r := by
  intro l
  induction l with
  | nil => intro r _ hr; exact absurd hr (List.not_mem_nil r)
  | cons a tl ih =>
    intro r hnd hr
    rw [List.map_cons, List.nodup_cons] at hnd
    rcases List.mem_cons.mp hr with hra | hrtl
    · subst hra
      simp [List.find?]
    · have hne : (rowKey 1 a == rowKey 1 r) = false := by
        rw [beq_eq_false_iff_ne]
        intro hcon
        exact hnd.1 (hcon ▸ List.mem_map_of_mem (rowKey 1) hrtl)
      simp only [List.find?, hne, cond_false]
      exact ih r hnd.2 hrtl

lemma snippet_lookup_self (rows : List Row) (r : Row)
    (hnd : (rows.map (rowKey 1)).Nodup) (hr : r ∈ rows) :
    snippet_lookup rows (rowKey 1 r) = some (rowKey 2 r) := by
  have hnd2 : (rows.reverse.map (rowKey 1)).Nodup := by
    rw [List.map_reverse]
    exact List.nodup_reverse.mpr hnd
  rw [snippet_lookup, find?_key_unique rows.reverse r hnd2 (List.mem_reverse.mpr hr)]
  rfl

/-- C5 counterexample: a record with no snippet gets the sentinel "No Snippet"
as its snippet cell, so when its enrichment result is "HTTP 404" the fourth
column is overwritten with "No Snippet", not with "No Meta Description" as the
claim states. -/
theorem attach_meta_counterexample :
    news_pipeline_rows [⟨some "T", some "http://a", none⟩] ["HTTP 404"]
        = [["T", "http://a", "No Snippet", "No Snippet"]]
      ∧ "No Snippet" ≠ "No Meta Description" := by
  constructor
  · rfl
  · decide

/-- C5 (amended): for every deduplicated news or top-stories row whose
enrichment result starts with "HTTP" or "Error", the orchestrator replaces the
fourth column with the row's own snippet cell — the original record's snippet
text when one was present, and the sentinel "No Snippet" (not
"No Meta Description") when the record had no snippet. -/
theorem attach_meta_snippet_fallback (news : List NewsItem) (metas : List String) (i : Nat)
    (hi : i < (dedupe_rows (news.map toNewsRow) 1 CAP_NEWS).length)
    (him : i < metas.length)
    (hm : startswith (metas.getD i "") "HTTP" ∨ startswith (metas.getD i "") "Error") :
    (news_pipeline_rows news metas).getD i []
      = (dedupe_rows (news.map toNewsRow) 1 CAP_NEWS).getD i []
          ++ [rowKey 2 ((dedupe_rows (news.map toNewsRow) 1 CAP_NEWS).getD i [])] := by
  have hnd : ((dedupe_rows (news.map toNewsRow) 1 CAP_NEWS).map (rowKey 1)).Nodup :=
    dedupe_rows_keys_nodup (news.map toNewsRow) 1 CAP_NEWS (by norm_num [CAP_NEWS])
  have hzlen : i < (news_pipeline_rows news metas).length := by
    simp only [news_pipeline_rows, attach_meta, List.length_zipWith]
    omega
  rw [List.getD_eq_getElem _ _ hzlen, List.getD_eq_getElem _ _ hi]
  rw [List.getD_eq_getElem _ _ him] at hm
  have hmem := List.getElem_mem hi
  simp only [news_pipeline_rows, attach_meta, List.getElem_zipWith]
  rw [if_pos hm, snippet_lookup_self _ _ hnd hmem]
  rfl

/-- C5 witness: the amended fallback at a concrete deduplicated row with a
snippet, whose enrichment returned "HTTP 500". -/
theorem attach_meta_snippet_fallback_witness :
    (news_pipeline_rows [⟨some "T", some "http://a", some "S"⟩] ["HTTP 500"]).getD 0 []
      = ["T", "http://a", "S", "S"] := by
  have h := attach_meta_snippet_fallback [⟨some "T", some "http://a", some "S"⟩] ["HTTP 500"] 0
    (by decide) (by decide) (Or.inl (by decide))
  rw [h]
  rfl

/-- C10: sentinel substitution is falsy-based, not absence-based. Each of the
three sentinels is substituted both for an absent field and for an
empty-string field; consequently two records with falsy links both get the
literal link "No Link" and the deduplication filter (keyed on the link column,
cap CAP_NEWS) collapses them to the first one. -/
theorem toNewsRow_falsy_sentinels (a b : NewsItem) :
    ((a.title = none ∨ a.title = some "") → (toNewsRow a).getD 0 "" = "No Title")
      ∧ ((a.link = none ∨ a.link = some "") → (toNewsRow a).getD 1 "" = "No Link")
      ∧ ((a.snippet = none ∨ a.snippet = some "") → (toNewsRow a).getD 2 "" = "No Snippet")
      ∧ ((a.link = none ∨ a.link = some "") → (b.link = none ∨ b.link = some "") →
          dedupe_rows [toNewsRow a, toNewsRow b] 1 CAP_NEWS = [toNewsRow a]) := by
  refine ⟨?_, ?_, ?_, ?_⟩
  · rintro (h | h) <;> simp [toNewsRow, falsyOr, h]
  · rintro (h | h) <;> simp [toNewsRow, falsyOr, h]
  · rintro (h | h) <;> simp [toNewsRow, falsyOr, h]
  · intro ha hb
    have hka : rowKey 1 (toNewsRow a) = "No Link" := by
      rcases ha with h | h <;> simp [toNewsRow, falsyOr, rowKey, h]
    have hkb : rowKey 1 (toNewsRow b) = "No Link" := by
      rcases hb with h | h <;> simp [toNewsRow, falsyOr, rowKey, h]
    simp [dedupe_rows, dedupeAux, hka, hkb, CAP_NEWS]

/-- C10 witness: a record with an absent link and one with an empty-string link
both map to "No Link" and deduplicate to the first row. -/
theorem toNewsRow_falsy_sentinels_witness :
    (toNewsRow ⟨none, none, some ""⟩).getD 0 "" = "No Title"
      ∧ (toNewsRow ⟨none, none, some ""⟩).getD 1 "" = "No Link"
      ∧ (toNewsRow ⟨none, none, some ""⟩).getD 2 "" = "No Snippet"
      ∧ dedupe_rows [toNewsRow ⟨none, none, some ""⟩, toNewsRow ⟨some "t", some "", some "s"⟩] 1
          CAP_NEWS = [toNewsRow ⟨none, none, some ""⟩] := by
  have h := toNewsRow_falsy_sentinels ⟨none, none, some ""⟩ ⟨some "t", some "", some "s"⟩
  exact ⟨h.1 (Or.inl rfl), h.2.1 (Or.inl rfl), h.2.2.1 (Or.inr rfl),
    h.2.2.2 (Or.inl rfl) (Or.inr rfl)⟩

/-- What the HTTP fetch and HTML parse of one URL can come to: an exception
anywhere in the try block, or a response with a status code and the parsed
meta-description tag. metaTag = none models no meta name="description" tag;
some none a tag without a content attribute; some (some c) a tag whose content
attribute is c. -/
inductive HttpResult
  | fetchException
  | response (status : Nat) (metaTag : Option (Option String))
deriving DecidableEq

/-- Embedding of the async _grab_desc from data_retrieval_storage_news_engine.py,
as a function of the URL and of what the network would answer. -/
def grab_desc (url : String) (res : HttpResult) : String :=
  if url = "" ∨ ¬ startswith url "http" then "Invalid URL"
  else
    match res with
    | .fetchException => "Error Fetching Description"
    | .response status metaTag =>
      if status ≠ 200 then "HTTP " ++ toString status
      else
        match metaTag with
        | some (some c) => if c.trim ≠ "" then c.trim else "No Meta Description"
        | _ => "No Meta Description"

/-- C6: the per-URL description fetch returns exactly one of the five sentinel
shapes — "Invalid URL" for an empty or non-http URL; "HTTP status" on a non-200
response; "No Meta Description" on a 200 response whose meta-description tag is
absent, has no content attribute, or has blank content; the trimmed content on
a 200 response with non-blank content; and "Error Fetching Description" on any
exception — and, being a total function of the modelled response, it never
propagates an exception. -/
theorem grab_desc_exhaustive (url : String) (res : HttpResult) :
    ((url = "" ∨ ¬ startswith url "http") → grab_desc url res = "Invalid URL")
      ∧ (url ≠ "" → startswith url "http" → res = .fetchException →
          grab_desc url res = "Error Fetching Description")
      ∧ (∀ status metaTag, url ≠ "" → startswith url "http" →
          res = .response status metaTag → status ≠ 200 →
          grab_desc url res = "HTTP " ++ toString status)
      ∧ (∀ metaTag, url ≠ "" → startswith url "http" → res = .response 200 metaTag →
          (metaTag = none ∨ metaTag = some none
            ∨ ∃ c : String, metaTag = some (some c) ∧ c.trim = "") →
          grab_desc url res = "No Meta Description")
      ∧ (∀ c, url ≠ "" → startswith url "http" → res = .response 200 (some (some c)) →
          c.trim ≠ "" → grab_desc url res = c.trim)
      ∧ (grab_desc url res = "Invalid URL"
          ∨ grab_desc url res = "Error Fetching Description"
          ∨ (∃ status : Nat, status ≠ 200 ∧ grab_desc url res = "HTTP " ++ toString status)
          ∨ grab_desc url res = "No Meta Description"
          ∨ (∃ c : String, grab_desc url res = c.trim ∧ c.trim ≠ "")) := by
  refine ⟨?_, ?_, ?_, ?_, ?_, ?_⟩
  · intro h
    rw [grab_desc.eq_def, if_pos h]
  · intro hne hsw hres
    subst hres
    simp [grab_desc, hne, hsw]
  · intro status metaTag hne hsw hres hst
    subst hres
    simp [grab_desc, hne, hsw, hst]
  · intro metaTag hne hsw hres htag
    subst hres
    rcases htag with h | h | ⟨c, h, hc⟩
    · subst h
      simp [grab_desc, hne, hsw]
    · subst h
      simp [grab_desc, hne, hsw]
    · subst h
      simp [grab_desc, hne, hsw, hc]
  · intro c hne hsw hres hc
    subst hres
    simp [grab_desc, hne, hsw, hc]
  · by_cases hu : url = "" ∨ ¬ startswith url "http"
    · exact Or.inl (by rw [grab_desc.eq_def, if_pos hu])
    · push_neg at hu
      obtain ⟨hne, hsw⟩ := hu
      match res with
      | .fetchException => exact Or.inr (Or.inl (by simp [grab_desc, hne, hsw]))
      | .response status metaTag =>
        by_cases hst : status = 200
        · subst hst
          match metaTag with
          | none => exact Or.inr (Or.inr (Or.inr (Or.inl (by simp [grab_desc, hne, hsw]))))
          | some none => exact Or.inr (Or.inr (Or.inr (Or.inl (by simp [grab_desc, hne, hsw]))))
          | some (some c) =>
            by_cases hc : c.trim = ""
            · exact Or.inr (Or.inr (Or.inr (Or.inl (by simp [grab_desc, hne, hsw, hc]))))
            · exact Or.inr (Or.inr (Or.inr (Or.inr ⟨c, by simp [grab_desc, hne, hsw, hc], hc⟩)))
        · exact Or.inr (Or.inr (Or.inl ⟨status, hst, by simp [grab_desc, hne, hsw, hst]⟩))

/-- C6 witness: the empty URL yields "Invalid URL" whatever the network would
have answered. -/
theorem grab_desc_exhaustive_witness :
    grab_desc "" HttpResult.fetchException = "Invalid URL" :=
  (grab_desc_exhaustive "" HttpResult.fetchException).1 (Or.inl rfl)

/-- Pad or truncate a list to exactly n entries, filling with d. -/
def padTo {α : Type} (n : Nat) (d : α) (l : List α) : List α :=
  l.take n ++ List.replicate (n - l.length) d

/-- gspread ws.resize(rows, cols): the grid is truncated or grown to exactly
r rows and c columns, new cells blank. -/
def resize (g : List Row) (r c : Nat) : List Row :=
  (padTo r ([] : Row) g).map (fun row => padTo c "" row)

/-- gspread ws.update starting at cell A1: the given values overlay the grid
from the top-left; grid cells beyond the values keep their previous content
(after the resize of overwrite_worksheet the values cover the grid exactly). -/
def updateA1 : List Row → List Row → List Row
  | g, [] => g
  | [], _ => []
  | r :: g, v :: vs => (v ++ r.drop v.length) :: updateA1 g vs

/-- Embedding of overwrite_worksheet from data_retrieval_storage_news_engine.py:
resize to len(rows)+1 times len(header), then update with [header] + rows. -/
def overwrite_worksheet (g : List Row) (header : Row) (rows : List Row) : List Row :=
  updateA1 (resize g (rows.length + 1) header.length) (header :: rows)

lemma padTo_length {α : Type} (n : Nat) (d : α) (l : List α) : (padTo n d l).length = n := by
  simp only [padTo, List.length_append, List.length_take, List.length_replicate]
  omega

lemma resize_length (g : List Row) (r c : Nat) : (resize g r c).length = r := by
  simp [resize, padTo_length]

lemma resize_row_length (g : List Row) (r c : Nat) :
    ∀ row ∈ resize g r c, row.length = c := by
  intro row hrow
  simp only [resize, List.mem_map] at hrow
  obtain ⟨x, _, hxe⟩ := hrow
  rw [← hxe, padTo_length]

lemma updateA1_exact (c : Nat) :
    ∀ (g vals : List Row), g.length = vals.length →
      (∀ r ∈ g, r.length = c) → (∀ v ∈ vals, v.length = c) → updateA1 g vals = vals := by
  intro g
  induction g with
  | nil =>
    intro vals hlen _ _
    cases vals with
    | nil => rfl
    | cons v vs => simp at hlen
  | cons r g ih =>
    intro vals hlen hg hv
    cases vals with
    | nil => simp at hlen
    | cons v vs =>
      have hrc : r.length = c := hg r (List.mem_cons_self r g)
      have hvc : v.length = c := hv v (List.mem_cons_self v vs)
      have hdrop : r.drop v.length = [] :=
        List.drop_eq_nil_of_le (le_of_eq (hrc.trans hvc.symm))
      rw [updateA1, hdrop, List.append_nil]
      rw [ih vs (by simpa using hlen) (fun x hx => hg x (List.mem_cons_of_mem r hx))
        (fun x hx => hv x (List.mem_cons_of_mem v hx))]

/-- C7: overwrite is a full replace. For every prior grid and every header and
rows of matching width, the resulting table is exactly [header] + rows — so it
has len(rows)+1 rows, every row has len(header) cells, any previous content
outside those bounds is gone, and running the same overwrite a second time
leaves the table unchanged. -/
theorem overwrite_worksheet_spec (g : List Row) (header : Row) (rows : List Row)
    (hw : ∀ r ∈ rows, r.length = header.length) :
    overwrite_worksheet g header rows = header :: rows
      ∧ (overwrite_worksheet g header rows).length = rows.length + 1
      ∧ (∀ r ∈ overwrite_worksheet g header rows, r.length = header.length)
      ∧ overwrite_worksheet (overwrite_worksheet g header rows) header rows
          = overwrite_worksheet g header rows := by
  have hmain : ∀ g2 : List Row, overwrite_worksheet g2 header rows = header :: rows := by
    intro g2
    unfold overwrite_worksheet
    apply updateA1_exact header.length
    · rw [resize_length]
      simp
    · exact resize_row_length g2 _ _
    · intro v hvm
      rcases List.mem_cons.mp hvm with h | h
      · rw [h]
      · exact hw v h
  refine ⟨hmain g, ?_, ?_, ?_⟩
  · rw [hmain g]
    simp
  · rw [hmain g]
    intro r hr
    rcases List.mem_cons.mp hr with h | h
    · rw [h]
    · exact hw r h
  · rw [hmain (overwrite_worksheet g header rows), hmain g]

/-- C7 witness: a grid with stale content wider and taller than the new table
is fully replaced, and a second identical overwrite changes nothing. -/
theorem overwrite_worksheet_spec_witness :
    overwrite_worksheet [["x", "y", "z"], ["p", "q", "r"], ["s", "t", "u"]]
        ["A", "B"] [["1", "2"]] = [["A", "B"], ["1", "2"]]
      ∧ overwrite_worksheet
          (overwrite_worksheet [["x", "y", "z"], ["p", "q", "r"], ["s", "t", "u"]]
            ["A", "B"] [["1", "2"]]) ["A", "B"] [["1", "2"]]
        = overwrite_worksheet [["x", "y", "z"], ["p", "q", "r"], ["s", "t", "u"]]
            ["A", "B"] [["1", "2"]] :=
  have h := overwrite_worksheet_spec [["x", "y", "z"], ["p", "q", "r"], ["s", "t", "u"]]
    ["A", "B"] [["1", "2"]] (by decide)
  ⟨h.1, h.2.2.2⟩

/-- Record of the two news tables as read back from the sheet (columns Title,
Link, Snippet, Meta Description). -/
structure NewsTableRow where
  title : String
  link : String
  snippet : String
  metaDescription : String
deriving DecidableEq

/-- Record of the two trends tables as read back from the sheet (columns Query,
Value). -/
structure TrendTableRow where
  query : String
  value : String
deriving DecidableEq

/-- Embedding of format_data_for_prompt, identical in
step2_summarisation_with_easier_reading.py and its _ca variant: four fixed
section headers, then one appended line per row. -/
def format_data_for_prompt (news top : List NewsTableRow)
    (rising toptr : List TrendTableRow) : String :=
  let out := "Google News Data (Canada):\n"
  let out := news.foldl (fun acc r =>
    acc ++ "- Title: " ++ r.title ++ ", Link: " ++ r.link
      ++ ", Snippet: " ++ r.snippet ++ "\n") out
  let out := out ++ "\nTop Stories Data (Canada):\n"
  let out := top.foldl (fun acc r =>
    acc ++ "- Title: " ++ r.title ++ ", Link: " ++ r.link
      ++ ", Snippet: " ++ r.snippet ++ "\n") out
  let out := out ++ "\nGoogle Trends Rising:\n"
  let out := rising.foldl (fun acc r =>
    acc ++ "- Query: " ++ r.query ++ ", Value: " ++ r.value ++ "\n") out
  let out := out ++ "\nGoogle Trends Top:\n"
  let out := toptr.foldl (fun acc r =>
    acc ++ "- Query: " ++ r.query ++ ", Value: " ++ r.value ++ "\n") out
  out

/-- Specification-side line for a news or top-stories row: exactly Title, Link,
Snippet in that order; the Meta Description column does not appear. -/
def newsLine (r : NewsTableRow) : String :=
  "- Title: " ++ r.title ++ ", Link: " ++ r.link ++ ", Snippet: " ++ r.snippet ++ "\n"

/-- Specification-side line for a trends row: exactly Query, Value in that
order. -/
def trendLine (r : TrendTableRow) : String :=
  "- Query: " ++ r.query ++ ", Value: " ++ r.value ++ "\n"

/-- One string per row, concatenated. -/
def joinLines {α : Type} (f : α → String) : List α → String
  | [] => ""
  | x :: xs => f x ++ joinLines f xs

/-- Blanking the Meta Description field of a news table row. -/
def stripMeta (r : NewsTableRow) : NewsTableRow :=
  { r with metaDescription := "" }

lemma foldl_append_lines {α : Type} (f : α → String) :
    ∀ (l : List α) (init : String),
      l.foldl (fun acc x => acc ++ f x) init = init ++ joinLines f l := by
  intro l
  induction l with
  | nil => intro init; simp [joinLines, String.append_empty]
  | cons x xs ih =>
    intro init
    rw [List.foldl_cons, ih (init ++ f x), joinLines, String.append_assoc]

/-- C9: the prompt flattening equals the four fixed section headers in fixed
order, each followed by one line per row built from exactly Title, Link,
Snippet (news tables) or Query, Value (trends tables); and it is unchanged if
every Meta Description value is blanked, so that column is not included. -/
theorem format_data_for_prompt_spec (news top : List NewsTableRow)
    (rising toptr : List TrendTableRow) :
    format_data_for_prompt news top rising toptr
        = "Google News Data (Canada):\n" ++ joinLines newsLine news
          ++ ("\nTop Stories Data (Canada):\n" ++ joinLines newsLine top)
          ++ ("\nGoogle Trends Rising:\n" ++ joinLines trendLine rising)
          ++ ("\nGoogle Trends Top:\n" ++ joinLines trendLine toptr)
      ∧ format_data_for_prompt (news.map stripMeta) (top.map stripMeta) rising toptr
        = format_data_for_prompt news top rising toptr := by
  have hfold : ∀ (l : List NewsTableRow) (init : String),
      l.foldl (fun acc r =>
        acc ++ "- Title: " ++ r.title ++ ", Link: " ++ r.link
          ++ ", Snippet: " ++ r.snippet ++ "\n") init = init ++ joinLines newsLine l := by
    intro l init
    have hfun : (fun (acc : String) (r : NewsTableRow) =>
        acc ++ "- Title: " ++ r.title ++ ", Link: " ++ r.link
          ++ ", Snippet: " ++ r.snippet ++ "\n")
        = fun acc r => acc ++ newsLine r := by
      funext acc r
      simp [newsLine, String.append_assoc]
    rw [hfun]
    exact foldl_append_lines newsLine l init
  have hfoldt : ∀ (l : List TrendTableRow) (init : String),
      l.foldl (fun acc r =>
        acc ++ "- Query: " ++ r.query ++ ", Value: " ++ r.value ++ "\n") init
        = init ++ joinLines trendLine l := by
    intro l init
    have hfun : (fun (acc : String) (r : TrendTableRow) =>
        acc ++ "- Query: " ++ r.query ++ ", Value: " ++ r.value ++ "\n")
        = fun acc r => acc ++ trendLine r := by
      funext acc r
      simp [trendLine, String.append_assoc]
    rw [hfun]
    exact foldl_append_lines trendLine l init
  have hstrip : ∀ l : List NewsTableRow,
      joinLines newsLine (l.map stripMeta) = joinLines newsLine l := by
    intro l
    induction l with
    | nil => rfl
    | cons x xs ih => simp [joinLines, newsLine, stripMeta, ih]
  constructor
  · simp only [format_data_for_prompt, hfold, hfoldt]
    simp [String.append_assoc]
  · simp only [format_data_for_prompt, hfold, hfoldt, hstrip]

end CASerpapi
